import Mathlib

/-!
Shallow embedding of the ESP32 bare-metal scheduler (src/src/main.c).

Machine integers are modelled as `Nat` (unsigned) and `Int` (C `int`);
`uint64_t` subtraction `now - last_run` is modelled with explicit wraparound
modulo 2^64 (`usub64`).  `void *` item and parameter pointers are modelled as
`Nat`, with the null pointer being `0`.  Task callbacks are opaque: a run is
recorded as the index of the task whose callback was invoked.  Stateful C
functions become explicit state-passing functions; functions that busy-spin
forever in a single execution context (`semaphore_wait` on a zero count,
`mutex_lock` on a locked mutex) return `Option`, with `none` for the spin that
never returns.
-/

/-- MAX_TASKS from main.c line 12. -/
def MAX_TASKS : Nat := 5

/-- MAX_QUEUE_SIZE from main.c line 13. -/
def MAX_QUEUE_SIZE : Nat := 10

/-- The source redefines INT_MAX as 999 (main.c line 14). -/
def INT_MAX : Int := 999

/-- Modulus of `uint64_t` arithmetic. -/
def UINT64_MOD : Nat := 2 ^ 64

/-- Wrapping `uint64_t` subtraction `a - b` (operands assumed < 2^64). -/
def usub64 (a b : Nat) : Nat := (a + UINT64_MOD - b) % UINT64_MOD

/-- task_state_t from main.c lines 17-22. -/
inductive task_state_t where
  | TASK_READY
  | TASK_RUNNING
  | TASK_WAITING
  | TASK_TERMINATED
deriving DecidableEq, Repr

/-- task_t, the task control block (main.c lines 28-35).  `func` and `param`
are opaque pointer values. -/
structure task_t where
  func : Nat
  param : Nat
  interval_ms : Nat
  last_run : Nat
  state : task_state_t
  priority : Int
deriving DecidableEq, Repr

/-- Out-of-bounds placeholder for `List.getD`; never produced by in-bounds
accesses, and (being TERMINATED) never eligible. -/
def defaultTask : task_t :=
  { func := 0, param := 0, interval_ms := 0, last_run := 0,
    state := task_state_t.TASK_TERMINATED, priority := 0 }

/-- Eligibility test shared by all dispatch branches (main.c lines 216-217,
229-230, 246-247, 281-282): state != TASK_TERMINATED and
now - last_run >= interval_ms in `uint64_t` arithmetic. -/
def eligible (now : Nat) (t : task_t) : Prop :=
  t.state ≠ task_state_t.TASK_TERMINATED ∧ t.interval_ms ≤ usub64 now t.last_run

instance (now : Nat) (t : task_t) : Decidable (eligible now t) :=
  inferInstanceAs (Decidable (_ ∧ _))

/-- queue_t (main.c lines 38-43): a circular buffer of MAX_QUEUE_SIZE
`void *` slots.  `items` always has length MAX_QUEUE_SIZE. -/
structure queue_t where
  items : List Nat
  front : Nat
  rear : Nat
  size : Nat
deriving DecidableEq, Repr

/-- The null pointer value returned by `queue_pop` on an empty queue. -/
def NULL : Nat := 0

/-- task_queue's initializer (main.c line 65); the item slots of the C global
are zero-initialized. -/
def queue_init : queue_t :=
  { items := List.replicate MAX_QUEUE_SIZE 0, front := 0, rear := 0, size := 0 }

/-- queue_push (main.c lines 110-116): store at rear, advance rear circularly,
increment size; silently drop the item when full. -/
def queue_push (q : queue_t) (item : Nat) : queue_t :=
  if q.size < MAX_QUEUE_SIZE then
    { q with items := q.items.set q.rear item,
             rear := (q.rear + 1) % MAX_QUEUE_SIZE,
             size := q.size + 1 }
  else q

/-- queue_pop (main.c lines 118-126): return the item at front, advance front
circularly, decrement size; on an empty queue return NULL and leave the queue
unchanged. -/
def queue_pop (q : queue_t) : Nat × queue_t :=
  if 0 < q.size then
    (q.items.getD q.front NULL,
     { q with front := (q.front + 1) % MAX_QUEUE_SIZE, size := q.size - 1 })
  else (NULL, q)

/-- semaphore_signal (main.c lines 151-153): unconditional increment. -/
def semaphore_signal (count : Int) : Int := count + 1

/-- semaphore_wait (main.c lines 146-149): busy-spins while count <= 0, then
decrements.  In the single-context embedding a spin on count <= 0 never
returns, modelled as `none`. -/
def semaphore_wait (count : Int) : Option Int :=
  if 0 < count then some (count - 1) else none

/-- mutex_lock (main.c lines 156-158): spins on an atomic test-and-set; it
returns only when the previous value of the flag was unlocked (false), leaving
the flag locked.  A call on an already-locked mutex spins forever in the
single-context embedding, modelled as `none`. -/
def mutex_lock (locked : Bool) : Option Bool :=
  if locked then none else some true

/-- mutex_unlock (main.c lines 160-162): atomic clear. -/
def mutex_unlock (_locked : Bool) : Bool := false

/-- Result of `scheduler_add_task`: `capacityExceeded` models the
ESP_LOGW "Max tasks reached" branch (main.c line 175). -/
inductive AddResult where
  | ok
  | capacityExceeded
deriving DecidableEq, Repr

/-- scheduler_type_t (main.c lines 74-79). -/
inductive scheduler_type_t where
  | SCHEDULER_RR
  | SCHEDULER_FCFS
  | SCHEDULER_PRIORITY
  | SCHEDULER_PREEMPTIVE
deriving DecidableEq, Repr

/-- The mutable scheduler globals: `task_list`/`task_count` (length of the
list, main.c lines 61-62), the RR branch's static cursor (main.c line 213),
and the global `current_task` used by the preemptive ISR (main.c line 71). -/
structure SchedState where
  task_list : List task_t
  rr_cursor : Nat
  current_task : Int
deriving DecidableEq, Repr

/-- scheduler_add_task (main.c lines 165-177): append a Ready task with
last_run = 0 when task_count < MAX_TASKS, otherwise warn and change nothing. -/
def scheduler_add_task (st : SchedState) (func param : Nat)
    (interval_ms : Nat) (priority : Int) : SchedState × AddResult :=
  if st.task_list.length < MAX_TASKS then
    ({ st with task_list := st.task_list ++
        [{ func := func, param := param, interval_ms := interval_ms,
           last_run := 0, state := task_state_t.TASK_READY,
           priority := priority }] },
     AddResult.ok)
  else (st, AddResult.capacityExceeded)

/-- scheduler_remove_task (main.c lines 179-183): mark the task Terminated
when 0 <= index < task_count, otherwise do nothing. -/
def scheduler_remove_task (st : SchedState) (index : Int) : SchedState :=
  if 0 ≤ index ∧ index < (st.task_list.length : Int) then
    { st with task_list := st.task_list.set index.toNat
                 ({ st.task_list.getD index.toNat defaultTask with
                     state := task_state_t.TASK_TERMINATED }) }
  else st

/-- The common run sequence (state -> RUNNING -> invoke callback ->
last_run := now -> state -> READY); its net effect on the task record. -/
def runTaskAt (tasks : List task_t) (i : Nat) (now : Nat) : List task_t :=
  tasks.set i
    ({ tasks.getD i defaultTask with
        last_run := now,
        state := task_state_t.TASK_READY })

/-- The SCHEDULER_PRIORITY selection loop (main.c lines 245-252, also the ISR
loop at lines 280-287): running minimum `hp` initialized to INT_MAX = 999,
winner index `hpt` initialized to -1, strict less-than update. -/
def prioAux (now : Nat) : List task_t → Nat → Int → Int → Int
  | [], _, _, hpt => hpt
  | t :: ts, i, hp, hpt =>
    if eligible now t ∧ t.priority < hp then
      prioAux now ts (i + 1) t.priority (Int.ofNat i)
    else
      prioAux now ts (i + 1) hp hpt

/-- The priority winner over the whole task list. -/
def prioSelect (now : Nat) (tasks : List task_t) : Int :=
  prioAux now tasks 0 INT_MAX (-1)

/-- The SCHEDULER_FCFS scan (main.c lines 228-237): index of the first
eligible task, if any. -/
def fcfsSelect (now : Nat) : List task_t → Option Nat
  | [] => none
  | t :: ts =>
    if eligible now t then some 0 else (fcfsSelect now ts).map (· + 1)

/-- scheduler_run (main.c lines 208-271).  `now` is the clock reading the C
code obtains from esp_timer_get_time()/1000; the returned `Option Nat` is the
index of the task whose callback was invoked this tick (none if no run). -/
def scheduler_run (sched : scheduler_type_t) (st : SchedState) (now : Nat) :
    SchedState × Option Nat :=
  match sched with
  | scheduler_type_t.SCHEDULER_RR =>
    if st.task_list.length = 0 then (st, none)
    else
      let c := st.rr_cursor
      let t := st.task_list.getD c defaultTask
      if eligible now t then
        ({ st with task_list := runTaskAt st.task_list c now,
                   rr_cursor := (c + 1) % st.task_list.length }, some c)
      else
        ({ st with rr_cursor := (c + 1) % st.task_list.length }, none)
  | scheduler_type_t.SCHEDULER_FCFS =>
    match fcfsSelect now st.task_list with
    | some i => ({ st with task_list := runTaskAt st.task_list i now }, some i)
    | none => (st, none)
  | scheduler_type_t.SCHEDULER_PRIORITY =>
    let sel := prioSelect now st.task_list
    if sel ≠ -1 then
      ({ st with task_list := runTaskAt st.task_list sel.toNat now },
       some sel.toNat)
    else (st, none)
  | scheduler_type_t.SCHEDULER_PREEMPTIVE => (st, none)

/-- timer_isr (main.c lines 274-304): recompute the priority winner; when a
winner exists and differs from `current_task`, demote the current task (if
any) to READY, track the winner in `current_task`, and run it (RUNNING ->
invoke -> last_run := now -> READY).  The hardware interrupt acknowledge at
lines 302-303 has no effect on the modelled state. -/
def timer_isr (st : SchedState) (now : Nat) : SchedState × Option Nat :=
  let sel := prioSelect now st.task_list
  if sel ≠ -1 ∧ sel ≠ st.current_task then
    let tl1 :=
      if st.current_task ≠ -1 then
        st.task_list.set st.current_task.toNat
          ({ st.task_list.getD st.current_task.toNat defaultTask with
              state := task_state_t.TASK_READY })
      else st.task_list
    ({ st with task_list := runTaskAt tl1 sel.toNat now, current_task := sel },
     some sel.toNat)
  else (st, none)

/-- Abstract FIFO contents of a queue: the `size` items starting at `front`,
read circularly. -/
def queueAbs (q : queue_t) : List Nat :=
  (List.range q.size).map (fun i => q.items.getD ((q.front + i) % MAX_QUEUE_SIZE) NULL)

/-- Representation invariant of the circular buffer; it holds for
`queue_init` and is preserved by push and pop. -/
def queueInv (q : queue_t) : Prop :=
  q.items.length = MAX_QUEUE_SIZE ∧ q.front < MAX_QUEUE_SIZE ∧
    q.size ≤ MAX_QUEUE_SIZE ∧ q.rear = (q.front + q.size) % MAX_QUEUE_SIZE

instance (q : queue_t) : Decidable (queueInv q) :=
  inferInstanceAs (Decidable (_ ∧ _ ∧ _ ∧ _))

/-- One queue operation. -/
inductive QOp where
  | push (item : Nat)
  | pop
deriving DecidableEq, Repr

/-- Run a sequence of queue operations; returns the final state, the list of
items returned by successful pops (pops on a non-empty queue), and the list of
pushed items that were accepted (not dropped by a full queue), both in
operation order. -/
def runQueue : queue_t → List QOp → queue_t × List Nat × List Nat
  | q, [] => (q, [], [])
  | q, QOp.push x :: ops =>
    let r := runQueue (queue_push q x) ops
    (r.1, r.2.1, (if q.size < MAX_QUEUE_SIZE then [x] else []) ++ r.2.2)
  | q, QOp.pop :: ops =>
    let p := queue_pop q
    let r := runQueue p.2 ops
    (r.1, (if 0 < q.size then [p.1] else []) ++ r.2.1, r.2.2)

/-- One registry/scheduler operation: the entry points that mutate the
scheduler globals from the cooperative context. -/
inductive SchedOp where
  | add (func param interval_ms : Nat) (priority : Int)
  | remove (index : Int)
  | tick (sched : scheduler_type_t) (now : Nat)
deriving DecidableEq, Repr

/-- One step of scheduler state, recording the index run (if a tick ran a
task's callback). -/
def schedStep (st : SchedState) : SchedOp → SchedState × Option Nat
  | SchedOp.add f p iv pr => ((scheduler_add_task st f p iv pr).1, none)
  | SchedOp.remove i => (scheduler_remove_task st i, none)
  | SchedOp.tick sch now => scheduler_run sch st now

/-- Run a sequence of scheduler operations, collecting every run task index. -/
def runSched : SchedState → List SchedOp → SchedState × List Nat
  | st, [] => (st, [])
  | st, op :: ops =>
    let r := schedStep st op
    let rest := runSched r.1 ops
    (rest.1, r.2.toList ++ rest.2)

/-- One semaphore operation. -/
inductive SemOp where
  | wait
  | signal
deriving DecidableEq, Repr

/-- Run a sequence of semaphore operations from a given count; returns the
trace of counts after each operation, or `none` as soon as a `wait` finds
count <= 0 and spins forever (such a sequence violates wait's precondition). -/
def runSem : Int → List SemOp → Option (List Int)
  | _, [] => some []
  | c, SemOp.wait :: ops =>
    match semaphore_wait c with
    | none => none
    | some c' => (runSem c' ops).map (fun tr => c' :: tr)
  | c, SemOp.signal :: ops =>
    (runSem (semaphore_signal c) ops).map (fun tr => semaphore_signal c :: tr)

/-- One mutex operation. -/
inductive MOp where
  | lock
  | unlock
deriving DecidableEq, Repr

/-- Run a sequence of mutex operations from a given flag state; `none` as
soon as a `lock` finds the mutex already locked and spins forever. -/
def runMutex : Bool → List MOp → Option Bool
  | b, [] => some b
  | b, MOp.lock :: ops =>
    match mutex_lock b with
    | none => none
    | some b' => runMutex b' ops
  | b, MOp.unlock :: ops => runMutex (mutex_unlock b) ops

/-- A state whose registry is at capacity (used to instantiate theorems). -/
def st5cap : SchedState :=
  { task_list := List.replicate MAX_TASKS defaultTask, rr_cursor := 0,
    current_task := -1 }

/-- The empty initial scheduler state (task_count = 0, cursor 0,
current_task = -1). -/
def schedInit : SchedState :=
  { task_list := [], rr_cursor := 0, current_task := -1 }

/-- A task record right after its callback ran at time `now`: last_run
updated, state back to READY, all other fields kept. -/
def ranTask (t : task_t) (now : Nat) : task_t :=
  { t with last_run := now, state := task_state_t.TASK_READY }

/-- Task A of the FCFS scenario: registered first, interval 5, never run. -/
def taskA : task_t :=
  { func := 0, param := 0, interval_ms := 5, last_run := 0,
    state := task_state_t.TASK_READY, priority := 0 }

/-- Task B of the FCFS scenario: registered second, interval 5, never run. -/
def taskB : task_t :=
  { func := 1, param := 0, interval_ms := 5, last_run := 0,
    state := task_state_t.TASK_READY, priority := 0 }

/-- Scheduler state with tasks [A, B] in registration order. -/
def fcfsAB : SchedState :=
  { task_list := [taskA, taskB], rr_cursor := 0, current_task := -1 }

/-- An always-eligible task (READY, interval 0) used to instantiate
scenario theorems. -/
def readyT : task_t :=
  { func := 0, param := 0, interval_ms := 0, last_run := 0,
    state := task_state_t.TASK_READY, priority := 1 }

/-- An always-eligible task whose priority equals the source's INT_MAX
(999). -/
def p999 : task_t := { readyT with priority := 999 }

/-- An always-eligible task of priority 3. -/
def prio3T : task_t := { readyT with priority := 3 }

/-- An always-eligible task of priority 1. -/
def prio1T : task_t := { readyT with priority := 1 }

/-- An always-eligible task of priority 2. -/
def prio2T : task_t := { readyT with priority := 2 }

/-- Registry with due tasks of priorities 3, 1, 2 in registration order. -/
def stPrio312 : SchedState :=
  { task_list := [prio3T, prio1T, prio2T], rr_cursor := 0, current_task := -1 }

/-- A terminated task record. -/
def termT : task_t := { readyT with state := task_state_t.TASK_TERMINATED }


/-- C2, counterexample: the claim says pop on an empty queue returns a result
distinguishable from every storable item, never a type-punned sentinel.  The
code returns NULL, and NULL (the integer 0 cast to a pointer) is exactly what
the producer task pushes first (main.c line 309 with data = 0): popping an
empty queue and popping a queue holding a legitimately pushed item yield the
same value. -/
theorem C2_counterexample :
    queue_init.size = 0 ∧
    (queue_pop queue_init).1 = NULL ∧
    (queue_push queue_init NULL).size = 1 ∧
    (queue_pop (queue_push queue_init NULL)).1 = NULL := by
  refine ⟨rfl, rfl, by decide, by decide⟩

/-- C2, amended: pop on an empty queue returns the NULL sentinel (leaving the
queue unchanged) — a value a caller can also push as a legitimate item, so it
is not distinguishable from every storable item; pop on a non-empty queue
returns the item at front, advances front circularly, and decrements size. -/
theorem C2_pop_amended (q : queue_t) :
    (q.size = 0 → queue_pop q = (NULL, q)) ∧
    (0 < q.size →
      queue_pop q =
        (q.items.getD q.front NULL,
         { q with front := (q.front + 1) % MAX_QUEUE_SIZE,
                  size := q.size - 1 })) := by
  constructor
  · intro h
    simp [queue_pop, h]
  · intro h
    simp [queue_pop, h]

/-- C2, witness: both branches of the amended pop specification instantiated
on concrete queues. -/
theorem C2_pop_amended_witness :
    queue_pop queue_init = (NULL, queue_init) ∧
    queue_pop (queue_push queue_init 7) =
      ((queue_push queue_init 7).items.getD (queue_push queue_init 7).front NULL,
       { queue_push queue_init 7 with
          front := ((queue_push queue_init 7).front + 1) % MAX_QUEUE_SIZE,
          size := (queue_push queue_init 7).size - 1 }) :=
  ⟨(C2_pop_amended queue_init).1 rfl,
   (C2_pop_amended (queue_push queue_init 7)).2 (by decide)⟩

/-- C4: adding to a registry already holding MAX_TASKS = 5 entries fails with
CapacityExceeded and leaves the whole scheduler state unchanged; adding to a
registry with fewer than 5 entries appends a Ready task with last_run = 0
(incrementing the count by one) and succeeds. -/
theorem C4_add_spec (st : SchedState) (f p iv : Nat) (pr : Int) :
    (st.task_list.length = MAX_TASKS →
      scheduler_add_task st f p iv pr = (st, AddResult.capacityExceeded)) ∧
    (st.task_list.length < MAX_TASKS →
      scheduler_add_task st f p iv pr =
        ({ st with task_list := st.task_list ++
            [{ func := f, param := p, interval_ms := iv, last_run := 0,
               state := task_state_t.TASK_READY, priority := pr }] },
         AddResult.ok) ∧
      (scheduler_add_task st f p iv pr).1.task_list.length =
        st.task_list.length + 1) := by
  constructor
  · intro h
    simp [scheduler_add_task, h]
  · intro h
    simp [scheduler_add_task, h]

/-- C4, witness: the capacity branch on a 5-entry registry and the append
branch on the empty registry. -/
theorem C4_add_spec_witness :
    scheduler_add_task st5cap 0 0 100 1 = (st5cap, AddResult.capacityExceeded) ∧
    (scheduler_add_task schedInit 1 2 3 4 =
      ({ schedInit with task_list := schedInit.task_list ++
          [{ func := 1, param := 2, interval_ms := 3, last_run := 0,
             state := task_state_t.TASK_READY, priority := 4 }] },
       AddResult.ok) ∧
     (scheduler_add_task schedInit 1 2 3 4).1.task_list.length =
       schedInit.task_list.length + 1) :=
  ⟨(C4_add_spec st5cap 0 0 100 1).1 (by decide),
   (C4_add_spec schedInit 1 2 3 4).2 (by decide)⟩

/-- Signal-only runs: n signals from count c produce the trace
c+1, c+2, ..., c+n. -/
theorem runSem_replicate_signal (n : Nat) (c : Int) :
    runSem c (List.replicate n SemOp.signal) =
      some ((List.range n).map (fun k : Nat => (c + k + 1 : Int))) := by
  induction n generalizing c with
  | zero => simp [runSem]
  | succ n ih =>
    rw [List.replicate_succ]
    simp only [runSem, semaphore_signal, ih (c + 1), Option.map_some']
    rw [List.range_succ_eq_map]
    rw [List.map_cons, List.map_map]
    congr 1
    congr 1
    · norm_num
    · apply List.map_congr_left
      intro a _
      simp only [Function.comp_apply]
      push_cast
      ring

/-- C8: starting from a non-negative count, any sequence of wait/signal calls
in which every wait meets its precondition (count > 0, i.e. the run does not
spin forever) keeps the count non-negative at every point; signal increments
unconditionally, so n signals drive the count to c+n, past any bound. -/
theorem C8_semaphore_spec :
    (∀ (c0 : Int) (ops : List SemOp) (tr : List Int), 0 ≤ c0 →
      runSem c0 ops = some tr → ∀ c ∈ tr, 0 ≤ c) ∧
    (∀ c : Int, semaphore_signal c = c + 1) ∧
    (∀ (c : Int) (n : Nat),
      runSem c (List.replicate n SemOp.signal) =
        some ((List.range n).map (fun k : Nat => (c + k + 1 : Int)))) := by
  refine ⟨?_, fun c => rfl, fun c n => runSem_replicate_signal n c⟩
  intro c0 ops tr h0 hrun
  induction ops generalizing c0 tr with
  | nil =>
    simp only [runSem, Option.some_inj] at hrun
    subst hrun
    simp
  | cons op ops ih =>
    cases op with
    | wait =>
      simp only [runSem, semaphore_wait] at hrun
      by_cases hc : 0 < c0
      · rw [if_pos hc] at hrun
        simp only [Option.map_eq_some'] at hrun
        obtain ⟨tr', hrun', rfl⟩ := hrun
        intro c hc'
        rcases List.mem_cons.mp hc' with rfl | hmem
        · omega
        · exact ih (c0 - 1) tr' (by omega) hrun' c hmem
      · rw [if_neg hc] at hrun
        exact absurd hrun (by simp)
    | signal =>
      simp only [runSem, semaphore_signal] at hrun
      simp only [Option.map_eq_some'] at hrun
      obtain ⟨tr', hrun', rfl⟩ := hrun
      intro c hc'
      rcases List.mem_cons.mp hc' with rfl | hmem
      · omega
      · exact ih (c0 + 1) tr' (by omega) hrun' c hmem

/-- C8, witness: the run wait-then-signal from count 1 stays non-negative,
and two signals from 0 reach 1 and 2. -/
theorem C8_semaphore_spec_witness :
    ((0 : Int) ≤ 0) ∧
    runSem 0 (List.replicate 2 SemOp.signal) =
      some ((List.range 2).map (fun k : Nat => ((0 : Int) + k + 1 : Int))) :=
  ⟨C8_semaphore_spec.1 1 [SemOp.wait, SemOp.signal] [0, 1] (by decide)
      (by decide) 0 (by decide),
   C8_semaphore_spec.2.2 0 2⟩

/-- After a successful lock the flag is held; any later lock with no
intervening unlock spins forever. -/
theorem runMutex_locked_no_unlock (mid : List MOp) (rest : List MOp)
    (h : MOp.unlock ∉ mid) :
    runMutex true (mid ++ MOp.lock :: rest) = none := by
  cases mid with
  | nil => simp [runMutex, mutex_lock]
  | cons m mid' =>
    cases m with
    | lock => simp [runMutex, mutex_lock]
    | unlock => exact absurd (List.mem_cons_self _ _) h

/-- C9: mutex lock returns successfully only when the previous flag value was
unlocked, and leaves the flag locked (exactly one holder); a lock on an
already-locked mutex never returns in the single-context embedding; hence two
sequential lock calls with no intervening unlock never both succeed — the run
containing them diverges at the second lock. -/
theorem C9_mutex_spec :
    (∀ b b' : Bool, mutex_lock b = some b' → b = false ∧ b' = true) ∧
    mutex_lock true = none ∧
    (∀ (mid rest : List MOp) (b : Bool), MOp.unlock ∉ mid →
      runMutex b (MOp.lock :: (mid ++ MOp.lock :: rest)) = none) := by
  refine ⟨?_, rfl, ?_⟩
  · intro b b' h
    cases b with
    | false => simp [mutex_lock] at h; simp [h]
    | true => simp [mutex_lock] at h
  · intro mid rest b hmid
    cases b with
    | true => simp [runMutex, mutex_lock]
    | false =>
      simp only [runMutex, mutex_lock, if_neg Bool.false_ne_true]
      exact runMutex_locked_no_unlock mid rest hmid

/-- C9, witness: lock from unlocked succeeds into the locked state, and the
two-lock run from unlocked diverges. -/
theorem C9_mutex_spec_witness :
    ((false = false) ∧ (true = true)) ∧
    runMutex false [MOp.lock, MOp.lock] = none :=
  ⟨C9_mutex_spec.1 false true rfl,
   C9_mutex_spec.2.2 [] [] false (by simp)⟩

/-- Updating the record at one index leaves every other index unchanged. -/
theorem runTaskAt_getD_ne (tasks : List task_t) (i now j : Nat) (h : j ≠ i) :
    (runTaskAt tasks i now).getD j defaultTask = tasks.getD j defaultTask := by
  simp [runTaskAt, List.getD_eq_getElem?_getD, List.getElem?_set_ne (Ne.symm h)]

/-- The run task's record after a run: last_run := now, state READY, all
other fields kept. -/
theorem runTaskAt_getD_self (tasks : List task_t) (i now : Nat)
    (h : i < tasks.length) :
    (runTaskAt tasks i now).getD i defaultTask =
      { tasks.getD i defaultTask with
         last_run := now,
         state := task_state_t.TASK_READY } := by
  simp [runTaskAt, List.getD_eq_getElem?_getD, List.getElem?_set_self',
    List.getElem?_eq_getElem h]

/-- runTaskAt preserves the task count. -/
theorem runTaskAt_length (tasks : List task_t) (i now : Nat) :
    (runTaskAt tasks i now).length = tasks.length := by
  simp [runTaskAt]

/-- A successful FCFS scan returns the first eligible index. -/
theorem fcfsSelect_eq_some (now : Nat) (ts : List task_t) (i : Nat)
    (h : fcfsSelect now ts = some i) :
    i < ts.length ∧ eligible now (ts.getD i defaultTask) ∧
      ∀ j < i, ¬ eligible now (ts.getD j defaultTask) := by
  induction ts generalizing i with
  | nil => simp [fcfsSelect] at h
  | cons t ts ih =>
    by_cases ht : eligible now t
    · rw [fcfsSelect, if_pos ht] at h
      injection h with h
      subst h
      refine ⟨Nat.succ_pos _, by simpa using ht, ?_⟩
      intro j hj
      omega
    · rw [fcfsSelect, if_neg ht, Option.map_eq_some'] at h
      obtain ⟨i', hi', rfl⟩ := h
      obtain ⟨h1, h2, h3⟩ := ih i' hi'
      refine ⟨by simp only [List.length_cons]; omega,
        by simpa [List.getD_cons_succ] using h2, ?_⟩
      intro j hj
      cases j with
      | zero => simpa using ht
      | succ j' =>
        have hj' : j' < i' := by omega
        simpa [List.getD_cons_succ] using h3 j' hj'

/-- The FCFS scan comes back empty exactly when no task is eligible. -/
theorem fcfsSelect_eq_none (now : Nat) (ts : List task_t) :
    fcfsSelect now ts = none ↔
      ∀ j < ts.length, ¬ eligible now (ts.getD j defaultTask) := by
  induction ts with
  | nil => simp [fcfsSelect]
  | cons t ts ih =>
    by_cases ht : eligible now t
    · rw [fcfsSelect, if_pos ht]
      constructor
      · intro h
        simp at h
      · intro h
        exact absurd ht (by simpa using h 0 (by simp only [List.length_cons]; omega))
    · rw [fcfsSelect, if_neg ht, Option.map_eq_none', ih]
      constructor
      · intro h j hj
        cases j with
        | zero => simpa using ht
        | succ j' =>
          have hj' : j' < ts.length := by
            simp only [List.length_cons] at hj
            omega
          simpa [List.getD_cons_succ] using h j' hj'
      · intro h j hj
        have hj' : j + 1 < (t :: ts).length := by
          simp only [List.length_cons]
          omega
        simpa [List.getD_cons_succ] using h (j + 1) hj'

/-- The FCFS branch of scheduler_run when the scan finds an eligible task. -/
theorem scheduler_run_fcfs_of_some (st : SchedState) (now i : Nat)
    (h : fcfsSelect now st.task_list = some i) :
    scheduler_run scheduler_type_t.SCHEDULER_FCFS st now =
      ({ st with task_list := runTaskAt st.task_list i now }, some i) := by
  have he : scheduler_run scheduler_type_t.SCHEDULER_FCFS st now =
      match fcfsSelect now st.task_list with
      | some i => ({ st with task_list := runTaskAt st.task_list i now }, some i)
      | none => (st, none) := rfl
  rw [h] at he
  exact he

/-- The FCFS branch of scheduler_run when no task is eligible. -/
theorem scheduler_run_fcfs_of_none (st : SchedState) (now : Nat)
    (h : fcfsSelect now st.task_list = none) :
    scheduler_run scheduler_type_t.SCHEDULER_FCFS st now = (st, none) := by
  have he : scheduler_run scheduler_type_t.SCHEDULER_FCFS st now =
      match fcfsSelect now st.task_list with
      | some i => ({ st with task_list := runTaskAt st.task_list i now }, some i)
      | none => (st, none) := rfl
  rw [h] at he
  exact he

/-- C6: under FCFS a tick runs exactly the first eligible task in
registration order (every earlier task is ineligible), leaves every other
task's record unchanged, and runs nothing exactly when no task is eligible
(leaving the state unchanged); in the [A(due), B(due)] scenario the first
tick runs only A and a second tick with B still due runs B. -/
theorem C6_fcfs_spec (st : SchedState) (now : Nat) :
    (∀ i, (scheduler_run scheduler_type_t.SCHEDULER_FCFS st now).2 = some i →
      i < st.task_list.length ∧
      eligible now (st.task_list.getD i defaultTask) ∧
      (∀ j < i, ¬ eligible now (st.task_list.getD j defaultTask)) ∧
      (scheduler_run scheduler_type_t.SCHEDULER_FCFS st now).1 =
        { st with task_list := runTaskAt st.task_list i now } ∧
      (∀ j, j ≠ i →
        (scheduler_run scheduler_type_t.SCHEDULER_FCFS st now).1.task_list.getD
            j defaultTask =
          st.task_list.getD j defaultTask)) ∧
    ((scheduler_run scheduler_type_t.SCHEDULER_FCFS st now).2 = none ↔
      ∀ j < st.task_list.length,
        ¬ eligible now (st.task_list.getD j defaultTask)) ∧
    ((scheduler_run scheduler_type_t.SCHEDULER_FCFS st now).2 = none →
      (scheduler_run scheduler_type_t.SCHEDULER_FCFS st now).1 = st) ∧
    (scheduler_run scheduler_type_t.SCHEDULER_FCFS fcfsAB 5).2 = some 0 ∧
    (scheduler_run scheduler_type_t.SCHEDULER_FCFS
      (scheduler_run scheduler_type_t.SCHEDULER_FCFS fcfsAB 5).1 5).2 =
        some 1 := by
  refine ⟨?_, ?_, ?_, by decide, by decide⟩
  · intro i hi
    cases hsel : fcfsSelect now st.task_list with
    | none =>
      rw [scheduler_run_fcfs_of_none st now hsel] at hi
      simp at hi
    | some i' =>
      rw [scheduler_run_fcfs_of_some st now i' hsel] at hi
      simp only [Option.some_inj] at hi
      subst hi
      obtain ⟨h1, h2, h3⟩ := fcfsSelect_eq_some now st.task_list i' hsel
      refine ⟨h1, h2, h3, ?_, ?_⟩
      · rw [scheduler_run_fcfs_of_some st now i' hsel]
      · intro j hj
        rw [scheduler_run_fcfs_of_some st now i' hsel]
        exact runTaskAt_getD_ne st.task_list i' now j hj
  · cases hsel : fcfsSelect now st.task_list with
    | none =>
      rw [scheduler_run_fcfs_of_none st now hsel]
      simp only [true_iff]
      exact (fcfsSelect_eq_none now st.task_list).mp hsel
    | some i' =>
      rw [scheduler_run_fcfs_of_some st now i' hsel]
      constructor
      · intro h
        simp at h
      · intro h
        have hn := (fcfsSelect_eq_none now st.task_list).mpr h
        rw [hsel] at hn
        exact Option.noConfusion hn
  · intro h
    cases hsel : fcfsSelect now st.task_list with
    | none => rw [scheduler_run_fcfs_of_none st now hsel]
    | some i' =>
      rw [scheduler_run_fcfs_of_some st now i' hsel] at h
      simp at h

/-- C6, witness: the per-tick characterization instantiated on the concrete
[A, B] scenario at time 5, discharging the some-branch hypothesis. -/
theorem C6_fcfs_spec_witness :
    0 < fcfsAB.task_list.length ∧
    eligible 5 (fcfsAB.task_list.getD 0 defaultTask) :=
  ⟨((C6_fcfs_spec fcfsAB 5).1 0 (by decide)).1,
   ((C6_fcfs_spec fcfsAB 5).1 0 (by decide)).2.1⟩

/-- The RR branch of scheduler_run when the cursor task is eligible. -/
theorem scheduler_run_rr_of_elig (st : SchedState) (now : Nat)
    (h0 : st.task_list.length ≠ 0)
    (he : eligible now (st.task_list.getD st.rr_cursor defaultTask)) :
    scheduler_run scheduler_type_t.SCHEDULER_RR st now =
      ({ st with task_list := runTaskAt st.task_list st.rr_cursor now,
                 rr_cursor := (st.rr_cursor + 1) % st.task_list.length },
       some st.rr_cursor) := by
  have he' : scheduler_run scheduler_type_t.SCHEDULER_RR st now =
      (if st.task_list.length = 0 then (st, none)
       else if eligible now (st.task_list.getD st.rr_cursor defaultTask) then
         ({ st with task_list := runTaskAt st.task_list st.rr_cursor now,
                    rr_cursor := (st.rr_cursor + 1) % st.task_list.length },
          some st.rr_cursor)
       else
         ({ st with rr_cursor := (st.rr_cursor + 1) % st.task_list.length },
          none)) := rfl
  rw [he', if_neg h0, if_pos he]

/-- The RR branch of scheduler_run when the cursor task is not eligible. -/
theorem scheduler_run_rr_of_not_elig (st : SchedState) (now : Nat)
    (h0 : st.task_list.length ≠ 0)
    (he : ¬ eligible now (st.task_list.getD st.rr_cursor defaultTask)) :
    scheduler_run scheduler_type_t.SCHEDULER_RR st now =
      ({ st with rr_cursor := (st.rr_cursor + 1) % st.task_list.length },
       none) := by
  have he' : scheduler_run scheduler_type_t.SCHEDULER_RR st now =
      (if st.task_list.length = 0 then (st, none)
       else if eligible now (st.task_list.getD st.rr_cursor defaultTask) then
         ({ st with task_list := runTaskAt st.task_list st.rr_cursor now,
                    rr_cursor := (st.rr_cursor + 1) % st.task_list.length },
          some st.rr_cursor)
       else
         ({ st with rr_cursor := (st.rr_cursor + 1) % st.task_list.length },
          none)) := rfl
  rw [he', if_neg h0, if_neg he]


/-- Running the head task rewrites only the head. -/
theorem runTaskAt_cons_zero (t : task_t) (ts : List task_t) (now : Nat) :
    runTaskAt (t :: ts) 0 now = ranTask t now :: ts := by
  simp [runTaskAt, ranTask]

/-- Running a later task leaves the head alone. -/
theorem runTaskAt_cons_succ (t : task_t) (ts : List task_t) (i now : Nat) :
    runTaskAt (t :: ts) (i + 1) now = t :: runTaskAt ts i now := by
  simp [runTaskAt, List.getD_cons_succ]

/-- C5: under RR with a non-empty registry a tick examines only the cursor
task — running it (last_run := now, state back to READY, all other task
records untouched) exactly when it is eligible — and the cursor advances by
one modulo the task count whether or not a run occurred; consequently, for a
registry of three tasks all eligible (in particular: equal intervals, all
already due), three consecutive ticks run tasks 0, 1, 2: each task exactly
once, in registration order. -/
theorem C5_rr_spec :
    (∀ (st : SchedState) (now : Nat), st.task_list.length ≠ 0 →
      (eligible now (st.task_list.getD st.rr_cursor defaultTask) →
        scheduler_run scheduler_type_t.SCHEDULER_RR st now =
          ({ st with task_list := runTaskAt st.task_list st.rr_cursor now,
                     rr_cursor := (st.rr_cursor + 1) % st.task_list.length },
           some st.rr_cursor)) ∧
      (¬ eligible now (st.task_list.getD st.rr_cursor defaultTask) →
        scheduler_run scheduler_type_t.SCHEDULER_RR st now =
          ({ st with rr_cursor := (st.rr_cursor + 1) % st.task_list.length },
           none)) ∧
      (∀ j, j ≠ st.rr_cursor →
        (scheduler_run scheduler_type_t.SCHEDULER_RR st now).1.task_list.getD
            j defaultTask =
          st.task_list.getD j defaultTask)) ∧
    (∀ (t0 t1 t2 : task_t) (now : Nat),
      eligible now t0 → eligible now t1 → eligible now t2 →
      (runSched { task_list := [t0, t1, t2], rr_cursor := 0, current_task := -1 }
        [SchedOp.tick scheduler_type_t.SCHEDULER_RR now,
         SchedOp.tick scheduler_type_t.SCHEDULER_RR now,
         SchedOp.tick scheduler_type_t.SCHEDULER_RR now]).2 = [0, 1, 2]) := by
  constructor
  · intro st now h0
    refine ⟨scheduler_run_rr_of_elig st now h0,
      scheduler_run_rr_of_not_elig st now h0, ?_⟩
    intro j hj
    by_cases he : eligible now (st.task_list.getD st.rr_cursor defaultTask)
    · rw [scheduler_run_rr_of_elig st now h0 he]
      exact runTaskAt_getD_ne st.task_list st.rr_cursor now j hj
    · rw [scheduler_run_rr_of_not_elig st now h0 he]
  · intro t0 t1 t2 now ht0 ht1 ht2
    have e1 : scheduler_run scheduler_type_t.SCHEDULER_RR
        { task_list := [t0, t1, t2], rr_cursor := 0, current_task := -1 } now =
        ({ task_list := [ranTask t0 now, t1, t2], rr_cursor := 1,
           current_task := -1 }, some 0) := by
      rw [scheduler_run_rr_of_elig _ now (by simp) (by simpa using ht0)]
      simp [runTaskAt_cons_zero]
    have e2 : scheduler_run scheduler_type_t.SCHEDULER_RR
        { task_list := [ranTask t0 now, t1, t2], rr_cursor := 1,
          current_task := -1 } now =
        ({ task_list := [ranTask t0 now, ranTask t1 now, t2], rr_cursor := 2,
           current_task := -1 }, some 1) := by
      rw [scheduler_run_rr_of_elig _ now (by simp)
        (by simpa [List.getD_cons_succ] using ht1)]
      simp [runTaskAt_cons_zero, runTaskAt_cons_succ]
    have e3 : scheduler_run scheduler_type_t.SCHEDULER_RR
        { task_list := [ranTask t0 now, ranTask t1 now, t2], rr_cursor := 2,
          current_task := -1 } now =
        ({ task_list := [ranTask t0 now, ranTask t1 now, ranTask t2 now],
           rr_cursor := 0, current_task := -1 }, some 2) := by
      rw [scheduler_run_rr_of_elig _ now (by simp)
        (by simpa [List.getD_cons_succ] using ht2)]
      simp [runTaskAt_cons_zero, runTaskAt_cons_succ]
    simp only [runSched, schedStep, e1, e2, e3]
    rfl

/-- C5, witness: the single-tick characterization on the concrete [A, B]
state and the three-tick scenario with three concrete always-due tasks. -/
theorem C5_rr_spec_witness :
    (scheduler_run scheduler_type_t.SCHEDULER_RR fcfsAB 5 =
      ({ fcfsAB with task_list := runTaskAt fcfsAB.task_list fcfsAB.rr_cursor 5,
                     rr_cursor := (fcfsAB.rr_cursor + 1) %
                       fcfsAB.task_list.length },
       some fcfsAB.rr_cursor)) ∧
    (runSched { task_list := [readyT, readyT, readyT], rr_cursor := 0,
                current_task := -1 }
      [SchedOp.tick scheduler_type_t.SCHEDULER_RR 0,
       SchedOp.tick scheduler_type_t.SCHEDULER_RR 0,
       SchedOp.tick scheduler_type_t.SCHEDULER_RR 0]).2 = [0, 1, 2] :=
  ⟨((C5_rr_spec.1 fcfsAB 5 (by decide)).1) (by decide),
   C5_rr_spec.2 readyT readyT readyT 0 (by decide) (by decide) (by decide)⟩

/-- The selection loop either keeps its incoming winner or returns the
absolute index of some eligible task whose priority beats the incoming
minimum. -/
theorem prioAux_cases (now : Nat) (ts : List task_t) :
    ∀ (i : Nat) (hp hpt : Int),
      prioAux now ts i hp hpt = hpt ∨
      ∃ k, k < ts.length ∧ prioAux now ts i hp hpt = Int.ofNat (i + k) ∧
        eligible now (ts.getD k defaultTask) ∧
        (ts.getD k defaultTask).priority < hp := by
  induction ts with
  | nil =>
    intro i hp hpt
    left
    rfl
  | cons t ts ih =>
    intro i hp hpt
    by_cases hgood : eligible now t ∧ t.priority < hp
    · rw [prioAux, if_pos hgood]
      rcases ih (i + 1) t.priority (Int.ofNat i) with h | ⟨k', hk', heq, helig, hlt⟩
      · right
        exact ⟨0, by simp, by simpa using h, by simpa using hgood.1,
          by simpa using hgood.2⟩
      · right
        refine ⟨k' + 1, by simp only [List.length_cons]; omega, ?_, ?_, ?_⟩
        · rw [heq]
          congr 1
          omega
        · simpa [List.getD_cons_succ] using helig
        · simp only [List.getD_cons_succ]
          exact lt_trans hlt hgood.2
    · rw [prioAux, if_neg hgood]
      rcases ih (i + 1) hp hpt with h | ⟨k', hk', heq, helig, hlt⟩
      · left
        exact h
      · right
        refine ⟨k' + 1, by simp only [List.length_cons]; omega, ?_, ?_, ?_⟩
        · rw [heq]
          congr 1
          omega
        · simpa [List.getD_cons_succ] using helig
        · simpa [List.getD_cons_succ] using hlt

/-- When no task beats the incoming minimum the loop keeps its incoming
winner. -/
theorem prioAux_no_good (now : Nat) (ts : List task_t) :
    ∀ (i : Nat) (hp hpt : Int),
      (∀ k < ts.length, ¬(eligible now (ts.getD k defaultTask) ∧
        (ts.getD k defaultTask).priority < hp)) →
      prioAux now ts i hp hpt = hpt := by
  induction ts with
  | nil =>
    intro i hp hpt _
    rfl
  | cons t ts ih =>
    intro i hp hpt h
    have ht : ¬(eligible now t ∧ t.priority < hp) := by
      simpa using h 0 (by simp only [List.length_cons]; omega)
    rw [prioAux, if_neg ht]
    apply ih
    intro k hk
    simpa [List.getD_cons_succ] using
      h (k + 1) (by simp only [List.length_cons]; omega)

/-- Minimality: whenever some task beats the incoming minimum, the loop
returns an absolute index whose task is eligible and whose priority is a
lower bound for every such task. -/
theorem prioAux_min (now : Nat) (ts : List task_t) :
    ∀ (i : Nat) (hp hpt : Int) (j : Nat), j < ts.length →
      eligible now (ts.getD j defaultTask) →
      (ts.getD j defaultTask).priority < hp →
      ∃ k, k < ts.length ∧ prioAux now ts i hp hpt = Int.ofNat (i + k) ∧
        eligible now (ts.getD k defaultTask) ∧
        (ts.getD k defaultTask).priority ≤ (ts.getD j defaultTask).priority ∧
        (ts.getD k defaultTask).priority < hp := by
  induction ts with
  | nil =>
    intro i hp hpt j hj
    exact absurd hj (by simp)
  | cons t ts ih =>
    intro i hp hpt j hj helig hlt
    by_cases hgood : eligible now t ∧ t.priority < hp
    · rw [prioAux, if_pos hgood]
      cases j with
      | zero =>
        rcases prioAux_cases now ts (i + 1) t.priority (Int.ofNat i) with
          h | ⟨k', hk', heq, he2, hlt2⟩
        · exact ⟨0, by simp, by simpa using h, by simpa using hgood.1,
            by simp, by simpa using hgood.2⟩
        · refine ⟨k' + 1, by simp only [List.length_cons]; omega, ?_, ?_, ?_, ?_⟩
          · rw [heq]
            congr 1
            omega
          · simpa [List.getD_cons_succ] using he2
          · simp only [List.getD_cons_succ, List.getD_cons_zero]
            exact le_of_lt hlt2
          · simp only [List.getD_cons_succ]
            exact lt_trans hlt2 hgood.2
      | succ j' =>
        have hj' : j' < ts.length := by
          simp only [List.length_cons] at hj
          omega
        have helig' : eligible now (ts.getD j' defaultTask) := by
          simpa [List.getD_cons_succ] using helig
        have hltj : (ts.getD j' defaultTask).priority < hp := by
          simpa [List.getD_cons_succ] using hlt
        by_cases hcmp : (ts.getD j' defaultTask).priority < t.priority
        · obtain ⟨k', hk', heq, he2, hle2, hlt2⟩ :=
            ih (i + 1) t.priority (Int.ofNat i) j' hj' helig' hcmp
          refine ⟨k' + 1, by simp only [List.length_cons]; omega, ?_, ?_, ?_, ?_⟩
          · rw [heq]
            congr 1
            omega
          · simpa [List.getD_cons_succ] using he2
          · simp only [List.getD_cons_succ]
            exact hle2
          · simp only [List.getD_cons_succ]
            exact lt_trans hlt2 hgood.2
        · push_neg at hcmp
          rcases prioAux_cases now ts (i + 1) t.priority (Int.ofNat i) with
            h | ⟨k', hk', heq, he2, hlt2⟩
          · refine ⟨0, by simp, by simpa using h, by simpa using hgood.1, ?_,
              by simpa using hgood.2⟩
            simp only [List.getD_cons_zero, List.getD_cons_succ]
            exact hcmp
          · refine ⟨k' + 1, by simp only [List.length_cons]; omega, ?_, ?_, ?_, ?_⟩
            · rw [heq]
              congr 1
              omega
            · simpa [List.getD_cons_succ] using he2
            · simp only [List.getD_cons_succ]
              exact le_trans (le_of_lt hlt2) hcmp
            · simp only [List.getD_cons_succ]
              exact lt_trans hlt2 hgood.2
    · rw [prioAux, if_neg hgood]
      cases j with
      | zero =>
        exact absurd ⟨by simpa using helig, by simpa using hlt⟩ hgood
      | succ j' =>
        have hj' : j' < ts.length := by
          simp only [List.length_cons] at hj
          omega
        obtain ⟨k', hk', heq, he2, hle2, hlt2⟩ :=
          ih (i + 1) hp hpt j' hj' (by simpa [List.getD_cons_succ] using helig)
            (by simpa [List.getD_cons_succ] using hlt)
        refine ⟨k' + 1, by simp only [List.length_cons]; omega, ?_, ?_, ?_, ?_⟩
        · rw [heq]
          congr 1
          omega
        · simpa [List.getD_cons_succ] using he2
        · simpa [List.getD_cons_succ] using hle2
        · simpa [List.getD_cons_succ] using hlt2

/-- First occurrence wins ties: when the loop (entered with a winner index
below the current position) returns absolute index i + k, that task is
eligible, beats the incoming minimum, and every earlier eligible task either
has strictly larger priority or did not beat the incoming minimum. -/
theorem prioAux_first (now : Nat) (ts : List task_t) :
    ∀ (i : Nat) (hp hpt : Int) (k : Nat), hpt < Int.ofNat i → k < ts.length →
      prioAux now ts i hp hpt = Int.ofNat (i + k) →
      eligible now (ts.getD k defaultTask) ∧
      (ts.getD k defaultTask).priority < hp ∧
      ∀ j < k, eligible now (ts.getD j defaultTask) →
        ((ts.getD k defaultTask).priority < (ts.getD j defaultTask).priority ∨
         hp ≤ (ts.getD j defaultTask).priority) := by
  induction ts with
  | nil =>
    intro i hp hpt k _ hk
    exact absurd hk (by simp)
  | cons t ts ih =>
    intro i hp hpt k hhpt hk heq
    by_cases hgood : eligible now t ∧ t.priority < hp
    · rw [prioAux, if_pos hgood] at heq
      cases k with
      | zero =>
        refine ⟨by simpa using hgood.1, by simpa using hgood.2, ?_⟩
        intro j hj
        exact absurd hj (Nat.not_lt_zero j)
      | succ k' =>
        have hk' : k' < ts.length := by
          simp only [List.length_cons] at hk
          omega
        have harith : Int.ofNat (i + (k' + 1)) = Int.ofNat ((i + 1) + k') := by
          congr 1
          omega
        have heq' : prioAux now ts (i + 1) t.priority (Int.ofNat i) =
            Int.ofNat ((i + 1) + k') := heq.trans harith
        have hlt1 : Int.ofNat i < Int.ofNat (i + 1) := by
          simp only [Int.ofNat_eq_coe]
          omega
        obtain ⟨he, hlt, hfirst⟩ :=
          ih (i + 1) t.priority (Int.ofNat i) k' hlt1 hk' heq'
        refine ⟨by simpa [List.getD_cons_succ] using he, ?_, ?_⟩
        · simp only [List.getD_cons_succ]
          exact lt_trans hlt hgood.2
        · intro j hj hej
          cases j with
          | zero =>
            left
            simp only [List.getD_cons_succ, List.getD_cons_zero]
            exact hlt
          | succ j' =>
            have hj' : j' < k' := by omega
            have hej' : eligible now (ts.getD j' defaultTask) := by
              simpa [List.getD_cons_succ] using hej
            rcases hfirst j' hj' hej' with hl | hr
            · left
              simpa [List.getD_cons_succ] using hl
            · left
              simp only [List.getD_cons_succ]
              exact lt_of_lt_of_le hlt hr
    · rw [prioAux, if_neg hgood] at heq
      cases k with
      | zero =>
        exfalso
        rcases prioAux_cases now ts (i + 1) hp hpt with h | ⟨k', hk', heq2, _, _⟩
        · have h2 : hpt = Int.ofNat (i + 0) := h.symm.trans heq
          simp only [Int.ofNat_eq_coe] at h2 hhpt
          omega
        · have h2 : Int.ofNat (i + 0) = Int.ofNat ((i + 1) + k') :=
            heq.symm.trans heq2
          simp only [Int.ofNat_eq_coe] at h2
          omega
      | succ k' =>
        have hk' : k' < ts.length := by
          simp only [List.length_cons] at hk
          omega
        have harith : Int.ofNat (i + (k' + 1)) = Int.ofNat ((i + 1) + k') := by
          congr 1
          omega
        have hhpt' : hpt < Int.ofNat (i + 1) := by
          refine lt_trans hhpt ?_
          simp only [Int.ofNat_eq_coe]
          omega
        obtain ⟨he, hlt, hfirst⟩ :=
          ih (i + 1) hp hpt k' hhpt' hk' (heq.trans harith)
        refine ⟨by simpa [List.getD_cons_succ] using he,
          by simpa [List.getD_cons_succ] using hlt, ?_⟩
        intro j hj hej
        cases j with
        | zero =>
          right
          simp only [List.getD_cons_zero]
          by_contra hcon
          push_neg at hcon
          exact hgood ⟨by simpa using hej, hcon⟩
        | succ j' =>
          rcases hfirst j' (by omega) (by simpa [List.getD_cons_succ] using hej)
            with hl | hr
          · left
            simpa [List.getD_cons_succ] using hl
          · right
            simpa [List.getD_cons_succ] using hr

/-- The priority scan returns -1 exactly when no task is both eligible and
of priority below INT_MAX = 999. -/
theorem prioSelect_neg_one_iff (now : Nat) (ts : List task_t) :
    prioSelect now ts = -1 ↔
      ∀ k < ts.length, ¬(eligible now (ts.getD k defaultTask) ∧
        (ts.getD k defaultTask).priority < INT_MAX) := by
  constructor
  · intro h
    by_contra hc
    push_neg at hc
    obtain ⟨k, hk, he, hlt⟩ := hc
    obtain ⟨k', hk', heq, _, _, _⟩ :=
      prioAux_min now ts 0 INT_MAX (-1) k hk he hlt
    rw [prioSelect] at h
    rw [h] at heq
    simp only [Int.ofNat_eq_coe] at heq
    omega
  · intro h
    exact prioAux_no_good now ts 0 INT_MAX (-1) h

/-- Full characterization of a successful priority scan: the returned index
is in range, eligible, of priority below INT_MAX, minimal among all such
tasks, and strictly below every earlier eligible task's priority. -/
theorem prioSelect_spec (now : Nat) (ts : List task_t) (k : Nat)
    (h : prioSelect now ts = Int.ofNat k) :
    k < ts.length ∧ eligible now (ts.getD k defaultTask) ∧
    (ts.getD k defaultTask).priority < INT_MAX ∧
    (∀ j < ts.length, eligible now (ts.getD j defaultTask) →
      (ts.getD j defaultTask).priority < INT_MAX →
      (ts.getD k defaultTask).priority ≤ (ts.getD j defaultTask).priority) ∧
    (∀ j < k, eligible now (ts.getD j defaultTask) →
      (ts.getD k defaultTask).priority < (ts.getD j defaultTask).priority) := by
  have hbase : k < ts.length ∧ eligible now (ts.getD k defaultTask) ∧
      (ts.getD k defaultTask).priority < INT_MAX := by
    rcases prioAux_cases now ts 0 INT_MAX (-1) with hc | ⟨k', hk', heq, he, hlt⟩
    · rw [prioSelect] at h
      rw [hc] at h
      simp only [Int.ofNat_eq_coe] at h
      omega
    · rw [prioSelect] at h
      rw [h] at heq
      have hkk : k = 0 + k' := by
        simp only [Int.ofNat_eq_coe] at heq
        omega
      subst hkk
      simp only [Nat.zero_add]
      exact ⟨hk', he, hlt⟩
  refine ⟨hbase.1, hbase.2.1, hbase.2.2, ?_, ?_⟩
  · intro j hj hej hlj
    obtain ⟨k'', hk'', heq2, _, hle2, _⟩ :=
      prioAux_min now ts 0 INT_MAX (-1) j hj hej hlj
    rw [prioSelect] at h
    rw [h] at heq2
    have hkk : k = 0 + k'' := by
      simp only [Int.ofNat_eq_coe] at heq2
      omega
    subst hkk
    simp only [Nat.zero_add]
    exact hle2
  · have hneg : (-1 : Int) < Int.ofNat 0 := by
      simp only [Int.ofNat_eq_coe]
      omega
    have h' : prioAux now ts 0 INT_MAX (-1) = Int.ofNat (0 + k) := by
      rw [prioSelect] at h
      simp only [Nat.zero_add]
      exact h
    obtain ⟨_, hlt, hfirst⟩ :=
      prioAux_first now ts 0 INT_MAX (-1) k hneg hbase.1 h'
    intro j hj hej
    rcases hfirst j hj hej with hl | hr
    · exact hl
    · exact lt_of_lt_of_le hlt hr

/-- The PRIORITY branch of scheduler_run when the scan finds a winner. -/
theorem scheduler_run_prio_of_some (st : SchedState) (now k : Nat)
    (h : prioSelect now st.task_list = Int.ofNat k) :
    scheduler_run scheduler_type_t.SCHEDULER_PRIORITY st now =
      ({ st with task_list := runTaskAt st.task_list k now }, some k) := by
  have he' : scheduler_run scheduler_type_t.SCHEDULER_PRIORITY st now =
      (if prioSelect now st.task_list ≠ -1 then
        ({ st with task_list :=
            runTaskAt st.task_list (prioSelect now st.task_list).toNat now },
         some (prioSelect now st.task_list).toNat)
       else (st, none)) := rfl
  rw [he', h, if_pos (by simp only [Int.ofNat_eq_coe, ne_eq]; omega)]
  simp only [Int.ofNat_eq_coe, Int.toNat_natCast]

/-- The PRIORITY branch of scheduler_run when no task wins the scan. -/
theorem scheduler_run_prio_of_none (st : SchedState) (now : Nat)
    (h : prioSelect now st.task_list = -1) :
    scheduler_run scheduler_type_t.SCHEDULER_PRIORITY st now = (st, none) := by
  have he' : scheduler_run scheduler_type_t.SCHEDULER_PRIORITY st now =
      (if prioSelect now st.task_list ≠ -1 then
        ({ st with task_list :=
            runTaskAt st.task_list (prioSelect now st.task_list).toNat now },
         some (prioSelect now st.task_list).toNat)
       else (st, none)) := rfl
  rw [he', h, if_neg (by simp)]

/-- C1, counterexample: the claim promises that an eligible task is selected
whatever its priority value when it strictly beats every other eligible task,
with the running minimum "initialized to infinite".  The source initializes
the minimum to its own INT_MAX = 999 (main.c line 14), so a sole eligible
task of priority 999 — vacuously smaller than every other eligible task's
priority — is never selected: the tick runs nothing. -/
theorem C1_counterexample :
    (⟨[p999], 0, -1⟩ : SchedState).task_list.length = 1 ∧
    eligible 0 ((⟨[p999], 0, -1⟩ : SchedState).task_list.getD 0 defaultTask) ∧
    (scheduler_run scheduler_type_t.SCHEDULER_PRIORITY ⟨[p999], 0, -1⟩ 0).2 =
      none := by
  refine ⟨rfl, by decide, by decide⟩

/-- C1, amended: a Priority tick scans all tasks and runs exactly the
eligible task with the numerically smallest priority among those of priority
strictly below INT_MAX = 999 (the code's finite stand-in for "infinite"),
first occurrence winning ties via strict less-than; it runs one task iff some
eligible task has priority below 999, and an eligible task of priority below
999 that strictly beats every other eligible task is the one selected; with
due priorities {3,1,2} a tick runs only the priority-1 task. -/
theorem C1_priority_amended (st : SchedState) (now : Nat) :
    (∀ i, (scheduler_run scheduler_type_t.SCHEDULER_PRIORITY st now).2 =
        some i →
      i < st.task_list.length ∧
      eligible now (st.task_list.getD i defaultTask) ∧
      (st.task_list.getD i defaultTask).priority < INT_MAX ∧
      (∀ j < st.task_list.length,
        eligible now (st.task_list.getD j defaultTask) →
        (st.task_list.getD j defaultTask).priority < INT_MAX →
        (st.task_list.getD i defaultTask).priority ≤
          (st.task_list.getD j defaultTask).priority) ∧
      (∀ j < i, eligible now (st.task_list.getD j defaultTask) →
        (st.task_list.getD i defaultTask).priority <
          (st.task_list.getD j defaultTask).priority) ∧
      (scheduler_run scheduler_type_t.SCHEDULER_PRIORITY st now).1 =
        { st with task_list := runTaskAt st.task_list i now }) ∧
    ((scheduler_run scheduler_type_t.SCHEDULER_PRIORITY st now).2 = none ↔
      ∀ j < st.task_list.length,
        ¬(eligible now (st.task_list.getD j defaultTask) ∧
          (st.task_list.getD j defaultTask).priority < INT_MAX)) ∧
    ((scheduler_run scheduler_type_t.SCHEDULER_PRIORITY st now).2 = none →
      (scheduler_run scheduler_type_t.SCHEDULER_PRIORITY st now).1 = st) ∧
    (∀ i < st.task_list.length,
      eligible now (st.task_list.getD i defaultTask) →
      (st.task_list.getD i defaultTask).priority < INT_MAX →
      (∀ j < st.task_list.length, j ≠ i →
        eligible now (st.task_list.getD j defaultTask) →
        (st.task_list.getD i defaultTask).priority <
          (st.task_list.getD j defaultTask).priority) →
      (scheduler_run scheduler_type_t.SCHEDULER_PRIORITY st now).2 = some i) ∧
    (scheduler_run scheduler_type_t.SCHEDULER_PRIORITY stPrio312 0).2 =
      some 1 := by
  have hdich : prioSelect now st.task_list = -1 ∨
      ∃ k, prioSelect now st.task_list = Int.ofNat k := by
    rcases prioAux_cases now st.task_list 0 INT_MAX (-1) with hc | ⟨k, _, heq, _, _⟩
    · exact Or.inl hc
    · exact Or.inr ⟨0 + k, heq⟩
  refine ⟨?_, ?_, ?_, ?_, by decide⟩
  · intro i hi
    rcases hdich with hc | ⟨k, hk⟩
    · rw [scheduler_run_prio_of_none st now hc] at hi
      simp at hi
    · rw [scheduler_run_prio_of_some st now k hk] at hi
      simp only [Option.some_inj] at hi
      subst hi
      obtain ⟨h1, h2, h3, h4, h5⟩ := prioSelect_spec now st.task_list k hk
      exact ⟨h1, h2, h3, h4, h5, by rw [scheduler_run_prio_of_some st now k hk]⟩
  · rcases hdich with hc | ⟨k, hk⟩
    · rw [scheduler_run_prio_of_none st now hc]
      simp only [true_iff]
      exact (prioSelect_neg_one_iff now st.task_list).mp hc
    · rw [scheduler_run_prio_of_some st now k hk]
      constructor
      · intro h
        simp at h
      · intro h
        have hneg := (prioSelect_neg_one_iff now st.task_list).mpr h
        rw [hk] at hneg
        simp only [Int.ofNat_eq_coe] at hneg
        omega
  · intro h
    rcases hdich with hc | ⟨k, hk⟩
    · rw [scheduler_run_prio_of_none st now hc]
    · rw [scheduler_run_prio_of_some st now k hk] at h
      simp at h
  · intro i hi hei hpi hdom
    rcases hdich with hc | ⟨k, hk⟩
    · exact absurd ⟨hei, hpi⟩ ((prioSelect_neg_one_iff now st.task_list).mp hc i hi)
    · obtain ⟨h1, h2, h3, h4, _⟩ := prioSelect_spec now st.task_list k hk
      by_cases hki : k = i
      · subst hki
        rw [scheduler_run_prio_of_some st now k hk]
      · exfalso
        have ha := hdom k h1 hki h2
        have hb := h4 i hi hei hpi
        omega

/-- C1, witness: the amended characterization instantiated on the concrete
registry with due priorities 3, 1, 2: the priority-1 task at index 1 wins. -/
theorem C1_priority_amended_witness :
    (1 < stPrio312.task_list.length ∧
     eligible 0 (stPrio312.task_list.getD 1 defaultTask) ∧
     (stPrio312.task_list.getD 1 defaultTask).priority < INT_MAX ∧
     (scheduler_run scheduler_type_t.SCHEDULER_PRIORITY stPrio312 0).1 =
       { stPrio312 with task_list := runTaskAt stPrio312.task_list 1 0 }) ∧
    (scheduler_run scheduler_type_t.SCHEDULER_PRIORITY stPrio312 0).2 =
      some 1 :=
  ⟨(fun h => ⟨h.1, h.2.1, h.2.2.1, h.2.2.2.2.2⟩)
    ((C1_priority_amended stPrio312 0).1 1 (by decide)),
   (C1_priority_amended stPrio312 0).2.2.2.1 1 (by decide) (by decide)
     (by decide) (by decide)⟩

/-- The ISR when a winner exists and differs from current_task: demote the
tracked task (if any), run the winner, track it. -/
theorem timer_isr_of_dispatch (st : SchedState) (now k : Nat)
    (h : prioSelect now st.task_list = Int.ofNat k)
    (hne : Int.ofNat k ≠ st.current_task) :
    timer_isr st now =
      ({ st with
          task_list := runTaskAt
            (if st.current_task ≠ -1 then
              st.task_list.set st.current_task.toNat
                ({ st.task_list.getD st.current_task.toNat defaultTask with
                    state := task_state_t.TASK_READY })
             else st.task_list) k now,
          current_task := Int.ofNat k }, some k) := by
  have he' : timer_isr st now =
      (if prioSelect now st.task_list ≠ -1 ∧
          prioSelect now st.task_list ≠ st.current_task then
        ({ st with
            task_list := runTaskAt
              (if st.current_task ≠ -1 then
                st.task_list.set st.current_task.toNat
                  ({ st.task_list.getD st.current_task.toNat defaultTask with
                      state := task_state_t.TASK_READY })
               else st.task_list) (prioSelect now st.task_list).toNat now,
            current_task := prioSelect now st.task_list },
         some (prioSelect now st.task_list).toNat)
       else (st, none)) := rfl
  rw [he', h,
    if_pos ⟨by simp only [Int.ofNat_eq_coe, ne_eq]; omega, hne⟩]
  simp only [Int.ofNat_eq_coe, Int.toNat_natCast]

/-- The ISR when no winner exists or the winner is already the tracked task:
nothing happens. -/
theorem timer_isr_no_dispatch (st : SchedState) (now : Nat)
    (h : ¬(prioSelect now st.task_list ≠ -1 ∧
        prioSelect now st.task_list ≠ st.current_task)) :
    timer_isr st now = (st, none) := by
  have he' : timer_isr st now =
      (if prioSelect now st.task_list ≠ -1 ∧
          prioSelect now st.task_list ≠ st.current_task then
        ({ st with
            task_list := runTaskAt
              (if st.current_task ≠ -1 then
                st.task_list.set st.current_task.toNat
                  ({ st.task_list.getD st.current_task.toNat defaultTask with
                      state := task_state_t.TASK_READY })
               else st.task_list) (prioSelect now st.task_list).toNat now,
            current_task := prioSelect now st.task_list },
         some (prioSelect now st.task_list).toNat)
       else (st, none)) := rfl
  rw [he', if_neg h]

/-- C10: the ISR dispatches only when the priority winner differs from the
shared current_task index; after dispatching task i it tracks current_task = i
and leaves that task's state READY; hence if the same task wins again on the
next invocation, that invocation dispatches nothing and changes nothing — a
task that stays the sole winner runs at most once until another task wins. -/
theorem C10_isr_spec (st : SchedState) (now : Nat) :
    (∀ i, (timer_isr st now).2 = some i →
      prioSelect now st.task_list = Int.ofNat i ∧
      Int.ofNat i ≠ st.current_task ∧
      (timer_isr st now).1.current_task = Int.ofNat i ∧
      ((timer_isr st now).1.task_list.getD i defaultTask).state =
        task_state_t.TASK_READY) ∧
    (prioSelect now st.task_list = st.current_task →
      timer_isr st now = (st, none)) ∧
    (∀ (now2 : Nat) (i : Nat), (timer_isr st now).2 = some i →
      prioSelect now2 (timer_isr st now).1.task_list = Int.ofNat i →
      timer_isr (timer_isr st now).1 now2 = ((timer_isr st now).1, none)) := by
  have h1 : ∀ i, (timer_isr st now).2 = some i →
      prioSelect now st.task_list = Int.ofNat i ∧
      Int.ofNat i ≠ st.current_task ∧
      (timer_isr st now).1.current_task = Int.ofNat i ∧
      ((timer_isr st now).1.task_list.getD i defaultTask).state =
        task_state_t.TASK_READY := by
    intro i hi
    by_cases hcond : prioSelect now st.task_list ≠ -1 ∧
        prioSelect now st.task_list ≠ st.current_task
    · have hdich : ∃ k, prioSelect now st.task_list = Int.ofNat k := by
        rcases prioAux_cases now st.task_list 0 INT_MAX (-1) with
          hc | ⟨k, _, heq, _, _⟩
        · exact absurd hc hcond.1
        · exact ⟨0 + k, heq⟩
      obtain ⟨k, hk⟩ := hdich
      have hne : Int.ofNat k ≠ st.current_task := hk ▸ hcond.2
      rw [timer_isr_of_dispatch st now k hk hne] at hi
      simp only [Option.some_inj] at hi
      subst hi
      have hbound := (prioSelect_spec now st.task_list k hk).1
      have htl : (if st.current_task ≠ -1 then
          st.task_list.set st.current_task.toNat
            ({ st.task_list.getD st.current_task.toNat defaultTask with
                state := task_state_t.TASK_READY })
         else st.task_list).length = st.task_list.length := by
        split <;> simp
      refine ⟨hk, hne, ?_, ?_⟩
      · rw [timer_isr_of_dispatch st now k hk hne]
      · rw [timer_isr_of_dispatch st now k hk hne]
        rw [runTaskAt_getD_self _ k now (by rw [htl]; exact hbound)]
    · rw [timer_isr_no_dispatch st now hcond] at hi
      simp at hi
  refine ⟨h1, ?_, ?_⟩
  · intro h
    exact timer_isr_no_dispatch st now (fun hc => hc.2 h)
  · intro now2 i hi hw
    obtain ⟨_, _, hcur, _⟩ := h1 i hi
    exact timer_isr_no_dispatch _ now2 (fun hc => hc.2 (hw.trans hcur.symm))

/-- C10, witness: one always-due task; the first ISR invocation dispatches it
and tracks it, and a second invocation with the same winner does nothing. -/
theorem C10_isr_spec_witness :
    (prioSelect 0 (⟨[readyT], 0, -1⟩ : SchedState).task_list = Int.ofNat 0 ∧
     Int.ofNat 0 ≠ (⟨[readyT], 0, -1⟩ : SchedState).current_task ∧
     (timer_isr ⟨[readyT], 0, -1⟩ 0).1.current_task = Int.ofNat 0 ∧
     ((timer_isr ⟨[readyT], 0, -1⟩ 0).1.task_list.getD 0 defaultTask).state =
       task_state_t.TASK_READY) ∧
    timer_isr (timer_isr ⟨[readyT], 0, -1⟩ 0).1 0 =
      ((timer_isr ⟨[readyT], 0, -1⟩ 0).1, none) :=
  ⟨(C10_isr_spec ⟨[readyT], 0, -1⟩ 0).1 0 (by decide),
   (C10_isr_spec ⟨[readyT], 0, -1⟩ 0).2.2 0 0 (by decide) (by decide)⟩

/-- getD after set at the same (in-range) index. -/
theorem getD_set_self {α : Type} (l : List α) (i : Nat) (v d : α)
    (h : i < l.length) : (l.set i v).getD i d = v := by
  simp [List.getD_eq_getElem?_getD, List.getElem?_set_self',
    List.getElem?_eq_getElem h]

/-- getD after set at a different index. -/
theorem getD_set_ne {α : Type} (l : List α) (i j : Nat) (v d : α)
    (h : j ≠ i) : (l.set i v).getD j d = l.getD j d := by
  simp [List.getD_eq_getElem?_getD, List.getElem?_set_ne (Ne.symm h)]

/-- Re-marking an already-terminated record changes nothing. -/
theorem set_state_self (t : task_t)
    (h : t.state = task_state_t.TASK_TERMINATED) :
    ({ t with state := task_state_t.TASK_TERMINATED }) = t := by
  rw [← h]

/-- The RR branch on an empty registry returns immediately. -/
theorem scheduler_run_rr_of_empty (st : SchedState) (now : Nat)
    (h0 : st.task_list.length = 0) :
    scheduler_run scheduler_type_t.SCHEDULER_RR st now = (st, none) := by
  have he' : scheduler_run scheduler_type_t.SCHEDULER_RR st now =
      (if st.task_list.length = 0 then (st, none)
       else if eligible now (st.task_list.getD st.rr_cursor defaultTask) then
         ({ st with task_list := runTaskAt st.task_list st.rr_cursor now,
                    rr_cursor := (st.rr_cursor + 1) % st.task_list.length },
          some st.rr_cursor)
       else
         ({ st with rr_cursor := (st.rr_cursor + 1) % st.task_list.length },
          none)) := rfl
  rw [he', if_pos h0]

/-- One scheduler operation can neither change a terminated task's record nor
run its callback. -/
theorem schedStep_preserves_terminated (st : SchedState) (op : SchedOp)
    (i : Nat) (hlen : i < st.task_list.length)
    (hterm : (st.task_list.getD i defaultTask).state =
      task_state_t.TASK_TERMINATED) :
    i < (schedStep st op).1.task_list.length ∧
    (schedStep st op).1.task_list.getD i defaultTask =
      st.task_list.getD i defaultTask ∧
    (schedStep st op).2 ≠ some i := by
  cases op with
  | add f p iv pr =>
    simp only [schedStep, scheduler_add_task]
    by_cases hc : st.task_list.length < MAX_TASKS
    · rw [if_pos hc]
      refine ⟨by simp only [List.length_append, List.length_cons]; omega, ?_,
        by simp⟩
      simp only [List.getD_eq_getElem?_getD, List.getElem?_append_left hlen]
    · rw [if_neg hc]
      exact ⟨hlen, rfl, by simp⟩
  | remove idx =>
    simp only [schedStep, scheduler_remove_task]
    by_cases hc : 0 ≤ idx ∧ idx < (st.task_list.length : Int)
    · rw [if_pos hc]
      refine ⟨by simpa using hlen, ?_, by simp⟩
      by_cases hii : idx.toNat = i
      · rw [hii]
        rw [getD_set_self _ i _ _ hlen]
        exact set_state_self _ hterm
      · exact getD_set_ne _ idx.toNat i _ _ (Ne.symm hii)
    · rw [if_neg hc]
      exact ⟨hlen, rfl, by simp⟩
  | tick sch now =>
    simp only [schedStep]
    cases sch with
    | SCHEDULER_RR =>
      by_cases h0 : st.task_list.length = 0
      · rw [scheduler_run_rr_of_empty st now h0]
        exact ⟨hlen, rfl, by simp⟩
      · by_cases he : eligible now (st.task_list.getD st.rr_cursor defaultTask)
        · have hci : st.rr_cursor ≠ i := by
            intro hcon
            rw [hcon] at he
            exact he.1 hterm
          rw [scheduler_run_rr_of_elig st now h0 he]
          exact ⟨by simpa [runTaskAt_length] using hlen,
            runTaskAt_getD_ne _ _ _ _ (Ne.symm hci), by simp [hci]⟩
        · rw [scheduler_run_rr_of_not_elig st now h0 he]
          exact ⟨hlen, rfl, by simp⟩
    | SCHEDULER_FCFS =>
      cases hsel : fcfsSelect now st.task_list with
      | none =>
        rw [scheduler_run_fcfs_of_none st now hsel]
        exact ⟨hlen, rfl, by simp⟩
      | some k =>
        obtain ⟨hk, he, _⟩ := fcfsSelect_eq_some now st.task_list k hsel
        have hki : k ≠ i := by
          intro hcon
          rw [hcon] at he
          exact he.1 hterm
        rw [scheduler_run_fcfs_of_some st now k hsel]
        exact ⟨by simpa [runTaskAt_length] using hlen,
          runTaskAt_getD_ne _ _ _ _ (Ne.symm hki), by simp [hki]⟩
    | SCHEDULER_PRIORITY =>
      rcases prioAux_cases now st.task_list 0 INT_MAX (-1) with
        hc | ⟨k, hk, heq, _, _⟩
      · rw [scheduler_run_prio_of_none st now hc]
        exact ⟨hlen, rfl, by simp⟩
      · have hk' : prioSelect now st.task_list = Int.ofNat k := by
          rw [prioSelect]
          simp only [Nat.zero_add] at heq
          exact heq
        obtain ⟨_, he, _, _, _⟩ := prioSelect_spec now st.task_list k hk'
        have hki : k ≠ i := by
          intro hcon
          rw [hcon] at he
          exact he.1 hterm
        rw [scheduler_run_prio_of_some st now k hk']
        exact ⟨by simpa [runTaskAt_length] using hlen,
          runTaskAt_getD_ne _ _ _ _ (Ne.symm hki), by simp [hki]⟩
    | SCHEDULER_PREEMPTIVE =>
      have hp : scheduler_run scheduler_type_t.SCHEDULER_PREEMPTIVE st now =
          (st, none) := rfl
      rw [hp]
      exact ⟨hlen, rfl, by simp⟩

/-- Over any operation sequence a terminated task's record is preserved and
its callback is never invoked. -/
theorem runSched_preserves_terminated (st : SchedState) (ops : List SchedOp)
    (i : Nat) (hlen : i < st.task_list.length)
    (hterm : (st.task_list.getD i defaultTask).state =
      task_state_t.TASK_TERMINATED) :
    (runSched st ops).1.task_list.getD i defaultTask =
      st.task_list.getD i defaultTask ∧
    i ∉ (runSched st ops).2 := by
  induction ops generalizing st with
  | nil => exact ⟨rfl, by simp [runSched]⟩
  | cons op ops ih =>
    obtain ⟨h1, h2, h3⟩ := schedStep_preserves_terminated st op i hlen hterm
    have hterm' : ((schedStep st op).1.task_list.getD i defaultTask).state =
        task_state_t.TASK_TERMINATED := by
      rw [h2]
      exact hterm
    obtain ⟨ih1, ih2⟩ := ih (schedStep st op).1 h1 hterm'
    constructor
    · exact ih1.trans h2
    · show i ∉ (schedStep st op).2.toList ++ (runSched (schedStep st op).1 ops).2
      intro hmem
      rcases List.mem_append.mp hmem with hm | hm
      · cases hop : (schedStep st op).2 with
        | none =>
          rw [hop] at hm
          simp [Option.toList] at hm
        | some j =>
          rw [hop] at hm
          simp only [Option.toList, List.mem_singleton] at hm
          exact h3 (by rw [hop, hm])
      · exact ih2 hm

/-- C7: remove(index) marks the task Terminated exactly when 0 <= index <
count and is a no-op on out-of-range indices; and a terminated task stays
terminated forever: over any subsequent sequence of add, remove, and tick
operations (under any policy) its record never changes and its callback is
never invoked. -/
theorem C7_remove_terminated :
    (∀ (st : SchedState) (idx : Int),
      (0 ≤ idx ∧ idx < (st.task_list.length : Int) →
        scheduler_remove_task st idx =
          { st with task_list := st.task_list.set idx.toNat
                       ({ st.task_list.getD idx.toNat defaultTask with
                           state := task_state_t.TASK_TERMINATED }) }) ∧
      (¬(0 ≤ idx ∧ idx < (st.task_list.length : Int)) →
        scheduler_remove_task st idx = st)) ∧
    (∀ (st : SchedState) (i : Nat) (ops : List SchedOp),
      i < st.task_list.length →
      (st.task_list.getD i defaultTask).state =
        task_state_t.TASK_TERMINATED →
      (runSched st ops).1.task_list.getD i defaultTask =
        st.task_list.getD i defaultTask ∧
      i ∉ (runSched st ops).2) := by
  constructor
  · intro st idx
    constructor
    · intro h
      rw [scheduler_remove_task, if_pos h]
    · intro h
      rw [scheduler_remove_task, if_neg h]
  · intro st i ops hlen hterm
    exact runSched_preserves_terminated st ops i hlen hterm

/-- C7, witness: removing index 0 of a two-task registry terminates it, and
across a later add, a repeated remove, and ticks under every policy the
terminated record survives unchanged and is never run. -/
theorem C7_remove_terminated_witness :
    scheduler_remove_task ⟨[readyT, taskB], 0, -1⟩ 0 =
      { (⟨[readyT, taskB], 0, -1⟩ : SchedState) with
         task_list := [readyT, taskB].set 0
                        ({ [readyT, taskB].getD 0 defaultTask with
                            state := task_state_t.TASK_TERMINATED }) } ∧
    scheduler_remove_task ⟨[readyT, taskB], 0, -1⟩ 5 =
      (⟨[readyT, taskB], 0, -1⟩ : SchedState) ∧
    ((runSched ⟨[termT, readyT], 0, -1⟩
        [SchedOp.tick scheduler_type_t.SCHEDULER_RR 3,
         SchedOp.add 9 9 1 7,
         SchedOp.remove 0,
         SchedOp.tick scheduler_type_t.SCHEDULER_PRIORITY 4,
         SchedOp.tick scheduler_type_t.SCHEDULER_FCFS 5,
         SchedOp.tick scheduler_type_t.SCHEDULER_PREEMPTIVE 6]).1.task_list.getD
        0 defaultTask =
      (⟨[termT, readyT], 0, -1⟩ : SchedState).task_list.getD 0 defaultTask ∧
     0 ∉ (runSched ⟨[termT, readyT], 0, -1⟩
        [SchedOp.tick scheduler_type_t.SCHEDULER_RR 3,
         SchedOp.add 9 9 1 7,
         SchedOp.remove 0,
         SchedOp.tick scheduler_type_t.SCHEDULER_PRIORITY 4,
         SchedOp.tick scheduler_type_t.SCHEDULER_FCFS 5,
         SchedOp.tick scheduler_type_t.SCHEDULER_PREEMPTIVE 6]).2) :=
  ⟨(C7_remove_terminated.1 ⟨[readyT, taskB], 0, -1⟩ 0).1 (by decide),
   (C7_remove_terminated.1 ⟨[readyT, taskB], 0, -1⟩ 5).2 (by decide),
   C7_remove_terminated.2 ⟨[termT, readyT], 0, -1⟩ 0
     [SchedOp.tick scheduler_type_t.SCHEDULER_RR 3,
      SchedOp.add 9 9 1 7,
      SchedOp.remove 0,
      SchedOp.tick scheduler_type_t.SCHEDULER_PRIORITY 4,
      SchedOp.tick scheduler_type_t.SCHEDULER_FCFS 5,
      SchedOp.tick scheduler_type_t.SCHEDULER_PREEMPTIVE 6]
     (by decide) (by decide)⟩

/-- A non-full push preserves the circular-buffer invariant and appends the
item to the abstract FIFO contents. -/
theorem queueAbs_push (q : queue_t) (x : Nat) (hinv : queueInv q)
    (hsz : q.size < MAX_QUEUE_SIZE) :
    queueInv (queue_push q x) ∧
    queueAbs (queue_push q x) = queueAbs q ++ [x] := by
  obtain ⟨hlen, hfr, hsz10, hrear⟩ := hinv
  rw [queue_push, if_pos hsz]
  constructor
  · refine ⟨?_, ?_, ?_, ?_⟩
    · show (q.items.set q.rear x).length = MAX_QUEUE_SIZE
      simpa using hlen
    · show q.front < MAX_QUEUE_SIZE
      exact hfr
    · show q.size + 1 ≤ MAX_QUEUE_SIZE
      omega
    · show (q.rear + 1) % MAX_QUEUE_SIZE =
        (q.front + (q.size + 1)) % MAX_QUEUE_SIZE
      rw [hrear, Nat.mod_add_mod]
      congr 1
  · show (List.range (q.size + 1)).map
        (fun i => (q.items.set q.rear x).getD
          ((q.front + i) % MAX_QUEUE_SIZE) NULL) =
      (List.range q.size).map
        (fun i => q.items.getD ((q.front + i) % MAX_QUEUE_SIZE) NULL) ++ [x]
    rw [List.range_succ, List.map_append, List.map_cons, List.map_nil]
    congr 1
    · apply List.map_congr_left
      intro i hi
      have hi' : i < q.size := List.mem_range.mp hi
      apply getD_set_ne
      rw [hrear]
      intro hcon
      simp only [MAX_QUEUE_SIZE] at hcon hsz
      omega
    · simp only [List.cons.injEq, and_true]
      rw [← hrear]
      exact getD_set_self _ _ _ _
        (by rw [hlen, hrear]; exact Nat.mod_lt _ (by decide))

/-- A non-empty pop preserves the invariant, returns the abstract head, and
leaves the abstract tail. -/
theorem queueAbs_pop (q : queue_t) (hinv : queueInv q) (hsz : 0 < q.size) :
    queueInv (queue_pop q).2 ∧
    (queue_pop q).1 = q.items.getD q.front NULL ∧
    queueAbs q = (queue_pop q).1 :: queueAbs (queue_pop q).2 := by
  obtain ⟨hlen, hfr, hsz10, hrear⟩ := hinv
  rw [queue_pop, if_pos hsz]
  refine ⟨⟨?_, ?_, ?_, ?_⟩, rfl, ?_⟩
  · show q.items.length = MAX_QUEUE_SIZE
    exact hlen
  · show (q.front + 1) % MAX_QUEUE_SIZE < MAX_QUEUE_SIZE
    exact Nat.mod_lt _ (by decide)
  · show q.size - 1 ≤ MAX_QUEUE_SIZE
    omega
  · show q.rear =
      ((q.front + 1) % MAX_QUEUE_SIZE + (q.size - 1)) % MAX_QUEUE_SIZE
    rw [hrear, Nat.mod_add_mod]
    congr 1
    omega
  · show (List.range q.size).map
        (fun i => q.items.getD ((q.front + i) % MAX_QUEUE_SIZE) NULL) =
      q.items.getD q.front NULL ::
        (List.range (q.size - 1)).map
          (fun i => q.items.getD
            (((q.front + 1) % MAX_QUEUE_SIZE + i) % MAX_QUEUE_SIZE) NULL)
    obtain ⟨k, hk⟩ : ∃ k, q.size = k + 1 := ⟨q.size - 1, by omega⟩
    rw [hk]
    simp only [Nat.add_sub_cancel]
    rw [List.range_succ_eq_map, List.map_cons, List.map_map]
    congr 1
    · congr 1
      rw [Nat.add_zero]
      exact Nat.mod_eq_of_lt hfr
    · apply List.map_congr_left
      intro i hi
      simp only [Function.comp_apply]
      congr 1
      rw [Nat.mod_add_mod]
      congr 1
      omega

/-- Main queue-run invariant: from any state satisfying the representation
invariant, the items popped so far followed by the remaining abstract
contents are exactly the prior contents followed by the accepted pushes, in
order. -/
theorem runQueue_spec (ops : List QOp) : ∀ (q : queue_t), queueInv q →
    queueInv (runQueue q ops).1 ∧
    (runQueue q ops).2.1 ++ queueAbs (runQueue q ops).1 =
      queueAbs q ++ (runQueue q ops).2.2 := by
  induction ops with
  | nil =>
    intro q h
    exact ⟨h, by simp [runQueue]⟩
  | cons op ops ih =>
    intro q h
    cases op with
    | push x =>
      have hrq : runQueue q (QOp.push x :: ops) =
          ((runQueue (queue_push q x) ops).1,
           (runQueue (queue_push q x) ops).2.1,
           (if q.size < MAX_QUEUE_SIZE then [x] else []) ++
             (runQueue (queue_push q x) ops).2.2) := rfl
      by_cases hsz : q.size < MAX_QUEUE_SIZE
      · obtain ⟨hi, habs⟩ := queueAbs_push q x h hsz
        obtain ⟨ih1, ih2⟩ := ih (queue_push q x) hi
        rw [hrq]
        refine ⟨ih1, ?_⟩
        rw [if_pos hsz]
        simp only
        rw [ih2, habs]
        simp [List.append_assoc]
      · have hpq : queue_push q x = q := by
          rw [queue_push, if_neg hsz]
        obtain ⟨ih1, ih2⟩ := ih (queue_push q x) (by rw [hpq]; exact h)
        rw [hrq]
        refine ⟨ih1, ?_⟩
        rw [if_neg hsz]
        simp only [List.nil_append]
        rw [hpq] at ih2 ⊢
        exact ih2
    | pop =>
      have hrq : runQueue q (QOp.pop :: ops) =
          ((runQueue (queue_pop q).2 ops).1,
           (if 0 < q.size then [(queue_pop q).1] else []) ++
             (runQueue (queue_pop q).2 ops).2.1,
           (runQueue (queue_pop q).2 ops).2.2) := rfl
      by_cases hsz : 0 < q.size
      · obtain ⟨hi, _, habs⟩ := queueAbs_pop q h hsz
        obtain ⟨ih1, ih2⟩ := ih (queue_pop q).2 hi
        rw [hrq]
        refine ⟨ih1, ?_⟩
        rw [if_pos hsz, habs]
        simp only [List.singleton_append, List.cons_append, List.append_assoc]
        rw [ih2]
        simp
      · have hp : queue_pop q = (NULL, q) := by
          rw [queue_pop, if_neg hsz]
        obtain ⟨ih1, ih2⟩ := ih (queue_pop q).2 (by rw [hp]; exact h)
        rw [hrq]
        refine ⟨ih1, ?_⟩
        rw [if_neg hsz]
        simp only [List.nil_append]
        rw [hp] at ih2 ⊢
        exact ih2

/-- C3: from the empty initial queue, over any finite sequence of push/pop
operations the size stays within [0, MAX_QUEUE_SIZE] = [0, 10]; the
successfully popped items followed by the remaining contents equal exactly
the accepted (non-dropped) pushes in push order (FIFO, so the popped sequence
is a prefix of the accepted pushes); and pushing into a queue already holding
10 items is a no-op: the state — items, size, front, rear — is unchanged. -/
theorem C3_queue_spec (ops : List QOp) :
    (runQueue queue_init ops).1.size ≤ MAX_QUEUE_SIZE ∧
    (runQueue queue_init ops).2.1 ++ queueAbs (runQueue queue_init ops).1 =
      (runQueue queue_init ops).2.2 ∧
    (∀ (q : queue_t) (x : Nat), q.size = MAX_QUEUE_SIZE →
      queue_push q x = q) := by
  have hinit : queueInv queue_init := by decide
  obtain ⟨h1, h2⟩ := runQueue_spec ops queue_init hinit
  refine ⟨h1.2.2.1, ?_, ?_⟩
  · rw [show queueAbs queue_init = [] from rfl] at h2
    simpa using h2
  · intro q x hq
    rw [queue_push, if_neg (by omega)]

/-- C3, witness: a concrete run (two pushes, three pops) and a concrete full
queue for the push-when-full no-op branch. -/
theorem C3_queue_spec_witness :
    (runQueue queue_init
        [QOp.push 1, QOp.push 2, QOp.pop, QOp.pop, QOp.pop]).1.size ≤
      MAX_QUEUE_SIZE ∧
    (runQueue queue_init
        [QOp.push 1, QOp.push 2, QOp.pop, QOp.pop, QOp.pop]).2.1 ++
      queueAbs (runQueue queue_init
        [QOp.push 1, QOp.push 2, QOp.pop, QOp.pop, QOp.pop]).1 =
      (runQueue queue_init
        [QOp.push 1, QOp.push 2, QOp.pop, QOp.pop, QOp.pop]).2.2 ∧
    queue_push ⟨List.replicate 10 5, 0, 0, 10⟩ 7 =
      ⟨List.replicate 10 5, 0, 0, 10⟩ :=
  ⟨(C3_queue_spec [QOp.push 1, QOp.push 2, QOp.pop, QOp.pop, QOp.pop]).1,
   (C3_queue_spec [QOp.push 1, QOp.push 2, QOp.pop, QOp.pop, QOp.pop]).2.1,
   (C3_queue_spec [QOp.push 1, QOp.push 2, QOp.pop, QOp.pop, QOp.pop]).2.2
     ⟨List.replicate 10 5, 0, 0, 10⟩ 7 rfl⟩
